import Mathlib

/-!
Shallow embedding of `src/engine/src/body/tt.rs` (the transposition table of
the svart chess engine).  Machine integers are modelled as `Nat`/`Int` with
explicit truncation where the Rust width matters (`% 256` for `u8`,
`% 65536` for `u16`, two's-complement wrap `wrap16` for `i16`, `% 2^32` for
`u32`, `% 2^64` for the `usize` cast).  Release-build semantics are used for
arithmetic (overflow wraps); a `panic!`/`unreachable!`/out-of-bounds path is
modelled as `Option.none`.
-/

/-- Two's-complement wrap of an integer into the `i16` range
`[-32768, 32767]`, modelling Rust `i16` wrapping arithmetic and the
`usize as i16` cast (applied to a coerced `Nat`). -/
def wrap16 (x : Int) : Int := (x + 32768) % 65536 - 32768

/-- Piece type of the `cozy_chess` move library (external collaborator),
in declaration order. -/
inductive Piece
  | Pawn
  | Knight
  | Bishop
  | Rook
  | Queen
  | King
deriving DecidableEq, Repr

/-- Move record of the `cozy_chess` library: from-square, to-square
(square indices `0..64`), optional promotion piece.  `from`/`to` are Lean
keywords, hence the `Sq` suffix. -/
structure Move where
  fromSq : Fin 64
  toSq : Fin 64
  promotion : Option Piece
deriving DecidableEq, Repr

/-- `TTFlag` from `tt.rs`. -/
inductive TTFlag
  | None
  | Exact
  | LowerBound
  | UpperBound
deriving DecidableEq, Repr

/-- `NOMOVE` from `definitions.rs`, which is not among the sources.  Its
value is forced to be zero by the in-tree test `tt_reset`: `reset`
zero-fills every slot and the test asserts the decoded move equals
`PackedMove(NOMOVE)`. -/
def NOMOVE : Nat := 0

/-- The 3-bit promotion tag of `PackedMove::new` (`tt.rs` lines 28-35):
one flag bit plus two piece-type bits.  `Pawn` and `King` promotions hit
the `unreachable!()` arm, modelled as `none`. -/
def promoBits : Option Piece → Option Nat
  | Option.none => some 0
  | some Piece.Knight => some 4
  | some Piece.Bishop => some 5
  | some Piece.Rook => some 6
  | some Piece.Queen => some 7
  | some Piece.Pawn => Option.none
  | some Piece.King => Option.none

namespace PackedMove

/-- `PackedMove::new` (`tt.rs` lines 18-41): `None` maps to the `NOMOVE`
sentinel, otherwise the 16-bit word `from | to << 6 | promotion << 12`.
`none` models the `unreachable!()` panic for a non-promotable piece. -/
def new (mv : Option Move) : Option Nat :=
  match mv with
  | Option.none => some NOMOVE
  | some m =>
    (promoBits m.promotion).map fun p =>
      m.fromSq.val ||| m.toSq.val <<< 6 ||| p <<< 12

/-- `PackedMove::unpack` (`tt.rs` lines 43-61).  The squares are the two
masked 6-bit fields; the 3-bit promotion tag is matched, with the tags
`0b001`, `0b010`, `0b011` hitting the `unreachable!()` arm (modelled as
`none`). -/
def unpack (w : Nat) : Option Move :=
  let f : Fin 64 := ⟨w &&& 63, by have h := Nat.and_le_right (n := w) (m := 63); omega⟩
  let t : Fin 64 := ⟨(w >>> 6) &&& 63, by have h := Nat.and_le_right (n := w >>> 6) (m := 63); omega⟩
  match (w >>> 12) &&& 7 with
  | 0 => some ⟨f, t, Option.none⟩
  | 4 => some ⟨f, t, some Piece.Knight⟩
  | 5 => some ⟨f, t, some Piece.Bishop⟩
  | 6 => some ⟨f, t, some Piece.Rook⟩
  | 7 => some ⟨f, t, some Piece.Queen⟩
  | _ => Option.none

end PackedMove

/-- The two flag bits of `AgeAndFlag::new` (`tt.rs` lines 68-77). -/
def flagBits : TTFlag → Nat
  | TTFlag.None => 0
  | TTFlag.Exact => 1
  | TTFlag.LowerBound => 2
  | TTFlag.UpperBound => 3

namespace AgeAndFlag

/-- `AgeAndFlag::new` (`tt.rs` lines 68-77): `age << 2 | flag` in `u8`
(the shift silently drops bits above the byte). -/
def new (age : Nat) (flag : TTFlag) : Nat :=
  (age <<< 2) % 256 ||| flagBits flag

/-- `AgeAndFlag::age` (`tt.rs` lines 79-81): `self.0 >> 2`. -/
def age (b : Nat) : Nat := b >>> 2

/-- `AgeAndFlag::flag` (`tt.rs` lines 83-91): match on the low two bits;
the `unreachable!()` arm cannot fire since `b &&& 3 < 4`, so the final
catch-all below is exactly the `0b11` case. -/
def flag (b : Nat) : TTFlag :=
  match b &&& 3 with
  | 0 => TTFlag.None
  | 1 => TTFlag.Exact
  | 2 => TTFlag.LowerBound
  | _ => TTFlag.UpperBound

end AgeAndFlag

/-- `TTEntry` (`tt.rs` lines 94-101), fields in declaration order:
packed move (`u16`), key fragment (`u16`), score (`i16`), depth (`u8`),
age/flag byte (`u8`). -/
structure TTEntry where
  mv : Nat
  key : Nat
  score : Int
  depth : Nat
  age_flag : Nat
deriving DecidableEq, Repr

/-- `TTEntry::quality` (`tt.rs` lines 104-108): `(age * 2 + self.depth) as
u16`.  The multiplication and addition happen in `u8` (release builds
wrap), and only the already-reduced byte is cast to `u16`. -/
def TTEntry.quality (e : TTEntry) : Nat :=
  ((AgeAndFlag.age e.age_flag * 2) % 256 + e.depth) % 256

/-- `TT` (`tt.rs` lines 126-129): the vector of (atomic) 64-bit slots,
each already decoded to its `TTEntry` view (the `u64 <-> TTEntry`
transmutes are a bijection, and the all-zero word is the all-zero entry),
plus the `u8` generation counter. -/
structure TT where
  entries : List TTEntry
  epoch : Nat
deriving DecidableEq, Repr

/-- Modelled from the spec: `TB_WIN_IN_PLY`, the lower edge of the
mate/tablebase-win score window, lives in `definitions.rs` which is not
among the sources.  The spec fixes only that it is a "win" threshold in
the signed 16-bit score space; we take the conventional mate value 32000
minus a 256-ply horizon. -/
def TB_WIN_IN_PLY : Int := 32000 - 256

/-- Modelled from the spec: `TB_LOSS_IN_PLY`, the "loss" threshold, the
negation of the win threshold (`definitions.rs`, not among the sources). -/
def TB_LOSS_IN_PLY : Int := -TB_WIN_IN_PLY

/-- `score_to_tt` (`tt.rs` lines 239-247), with Rust release semantics:
the `i16` additions wrap and `ply as i16` truncates. -/
def score_to_tt (score : Int) (ply : Nat) : Int :=
  if TB_WIN_IN_PLY ≤ score then wrap16 (score + wrap16 ply)
  else if score ≤ TB_LOSS_IN_PLY then wrap16 (score - wrap16 ply)
  else score

/-- `score_from_tt` (`tt.rs` lines 250-258). -/
def score_from_tt (score : Int) (ply : Nat) : Int :=
  if TB_WIN_IN_PLY ≤ score then wrap16 (score - wrap16 ply)
  else if score ≤ TB_LOSS_IN_PLY then wrap16 (score + wrap16 ply)
  else score

namespace TT

/-- `TT::new` (`tt.rs` lines 132-141): the byte budget `mb * 1024 * 1024`
is computed in `u32` (wrapping in release builds), divided by
`size_of::<TTEntry>() = 8`, and that many zeroed slots are pushed. -/
def new (mb : Nat) : TT :=
  let hash_size := mb * 1024 * 1024 % 4294967296
  let size := hash_size / 8
  { entries := List.replicate size ⟨0, 0, 0, 0, 0⟩, epoch := 0 }

/-- `TT::index` (`tt.rs` lines 144-150): widen key and length to `u128`,
multiply, take the high 64 bits, truncate to `usize`. -/
def index (t : TT) (key : Nat) : Nat :=
  ((key * t.entries.length) >>> 64) % 2 ^ 64

/-- `TT::probe` (`tt.rs` lines 152-158): load and decode the slot at
`index(key)`; `none` models the out-of-bounds panic on an empty table. -/
def probe (t : TT) (key : Nat) : Option TTEntry :=
  t.entries[t.index key]?

/-- `TT::age` (`tt.rs` lines 160-178): at `EPOCH_MAX = 63` the epoch is
zeroed and every slot's age/flag byte is re-encoded with age 0 and the
flag unchanged, then the epoch is incremented (`u8`, wrapping). -/
def age (t : TT) : TT :=
  if t.epoch = 63 then
    { entries := t.entries.map fun e =>
        { e with age_flag := AgeAndFlag.new 0 (AgeAndFlag.flag e.age_flag) },
      epoch := (0 + 1) % 256 }
  else
    { t with epoch := (t.epoch + 1) % 256 }

/-- `TT::store` (`tt.rs` lines 180-217).  `none` models a panic: either
the slot load is out of bounds (empty table) or `PackedMove::new` hit its
`unreachable!()`.  Otherwise the candidate entry is built, compared by
`quality`, and on replacement all fields are taken from the candidate
except that the move is kept when the candidate has no move and the key
fragments agree. -/
def store (t : TT) (key : Nat) (mv : Option Move) (score : Int)
    (depth : Nat) (flag : TTFlag) (ply : Nat) : Option TT :=
  let i := t.index key
  match t.entries[i]?, PackedMove.new mv with
  | some target, some packed =>
    let entry : TTEntry :=
      { mv := packed, key := key % 65536, score := score_to_tt score ply,
        depth := depth, age_flag := AgeAndFlag.new t.epoch flag }
    if entry.quality ≥ target.quality then
      let merged : TTEntry :=
        { mv := if mv.isSome ∨ target.key ≠ entry.key then entry.mv else target.mv,
          key := entry.key, score := entry.score, depth := entry.depth,
          age_flag := entry.age_flag }
      some { t with entries := t.entries.set i merged }
    else
      some t
  | _, _ => Option.none

end TT

/-- C1 counterexample: the 16-bit word `0x1000` (promotion tag `0b001`)
reaches the `unreachable!()` arm of `PackedMove::unpack`, so decoding is
not total. -/
theorem unpack_not_total_cex : PackedMove.unpack 4096 = Option.none := by
  decide

/-- C1 (amended): `PackedMove::unpack` returns a move record exactly for
the words whose 3-bit promotion tag is `0b000` or `0b100`-`0b111`; the
tags `0b001`, `0b010`, `0b011` reach the `unreachable!()` arm. -/
theorem unpack_isSome_iff (w : Nat) :
    (PackedMove.unpack w).isSome = true ↔
      ((w >>> 12) &&& 7 = 0 ∨ 4 ≤ (w >>> 12) &&& 7) := by
  have h : (w >>> 12) &&& 7 ≤ 7 := Nat.and_le_right
  unfold PackedMove.unpack
  set x := (w >>> 12) &&& 7 with hx
  interval_cases x <;> simp

/-- Auxiliary for C9: masking with 63 is reduction mod 64. -/
theorem and_63_eq_mod (a : Nat) : a &&& 63 = a % 64 := by
  have h := Nat.and_pow_two_sub_one_eq_mod a 6
  norm_num at h
  exact h

/-- Auxiliary for C9: masking with 7 is reduction mod 8. -/
theorem and_7_eq_mod (a : Nat) : a &&& 7 = a % 8 := by
  have h := Nat.and_pow_two_sub_one_eq_mod a 3
  norm_num at h
  exact h

/-- Auxiliary for C9: right shift distributes over bitwise or. -/
theorem shiftRight_or_distrib (a b n : Nat) :
    (a ||| b) >>> n = a >>> n ||| b >>> n := by
  apply Nat.eq_of_testBit_eq
  intro i
  simp [Nat.testBit_shiftRight, Nat.testBit_or]

/-- Auxiliary for C9: the three fields laid out by `PackedMove::new` are
recovered exactly by the masks and shifts of `PackedMove::unpack`. -/
theorem pack_extract (f t c : Nat) (hf : f < 64) (ht : t < 64) (hc : c < 8) :
    (f ||| t <<< 6 ||| c <<< 12) &&& 63 = f ∧
    ((f ||| t <<< 6 ||| c <<< 12) >>> 6) &&& 63 = t ∧
    ((f ||| t <<< 6 ||| c <<< 12) >>> 12) &&& 7 = c := by
  have e6 : (2 : Nat) ^ 6 = 64 := by norm_num
  have e12 : (2 : Nat) ^ 12 = 4096 := by norm_num
  refine ⟨?_, ?_, ?_⟩
  · rw [Nat.and_distrib_right, Nat.and_distrib_right, and_63_eq_mod,
      and_63_eq_mod, and_63_eq_mod, Nat.shiftLeft_eq, Nat.shiftLeft_eq, e6, e12]
    have h1 : f % 64 = f := by omega
    have h2 : t * 64 % 64 = 0 := by omega
    have h3 : c * 4096 % 64 = 0 := by omega
    rw [h1, h2, h3, Nat.or_zero, Nat.or_zero]
  · rw [shiftRight_or_distrib, shiftRight_or_distrib,
      Nat.shiftRight_eq_div_pow, Nat.shiftRight_eq_div_pow, Nat.shiftRight_eq_div_pow,
      Nat.shiftLeft_eq, Nat.shiftLeft_eq, e6, e12]
    have h1 : f / 64 = 0 := by omega
    have h2 : t * 64 / 64 = t := by omega
    have h3 : c * 4096 / 64 = c * 64 := by omega
    rw [h1, h2, h3, Nat.and_distrib_right, Nat.and_distrib_right, and_63_eq_mod,
      and_63_eq_mod, and_63_eq_mod]
    have h4 : t % 64 = t := by omega
    have h5 : c * 64 % 64 = 0 := by omega
    simp [h4, h5]
  · rw [shiftRight_or_distrib, shiftRight_or_distrib,
      Nat.shiftRight_eq_div_pow, Nat.shiftRight_eq_div_pow, Nat.shiftRight_eq_div_pow,
      Nat.shiftLeft_eq, Nat.shiftLeft_eq, e6, e12]
    have h1 : f / 4096 = 0 := by omega
    have h2 : t * 64 / 4096 = 0 := by omega
    have h3 : c * 4096 / 4096 = c := by omega
    rw [h1, h2, h3, Nat.zero_or, Nat.zero_or, and_7_eq_mod]
    omega

/-- C9: for every from-square and to-square in `0..64` and each of the 5
promotion states (none, Knight, Bishop, Rook, Queen), unpacking the
packed encoding of the move returns the original move record. -/
theorem packed_roundtrip (f t : Nat) (hf : f < 64) (ht : t < 64)
    (p : Option Piece) (hp : p ≠ some Piece.Pawn) (hk : p ≠ some Piece.King) :
    (PackedMove.new (some ⟨⟨f, hf⟩, ⟨t, ht⟩, p⟩)).bind PackedMove.unpack
      = some ⟨⟨f, hf⟩, ⟨t, ht⟩, p⟩ := by
  cases p with
  | none =>
    obtain ⟨h1, h2, h3⟩ := pack_extract f t 0 hf ht (by omega)
    show PackedMove.unpack (f ||| t <<< 6 ||| 0 <<< 12) = _
    unfold PackedMove.unpack
    simp only [h3, h1, h2]
  | some pc =>
    cases pc with
    | Pawn => exact absurd rfl hp
    | King => exact absurd rfl hk
    | Knight =>
      obtain ⟨h1, h2, h3⟩ := pack_extract f t 4 hf ht (by omega)
      show PackedMove.unpack (f ||| t <<< 6 ||| 4 <<< 12) = _
      unfold PackedMove.unpack
      simp only [h3, h1, h2]
    | Bishop =>
      obtain ⟨h1, h2, h3⟩ := pack_extract f t 5 hf ht (by omega)
      show PackedMove.unpack (f ||| t <<< 6 ||| 5 <<< 12) = _
      unfold PackedMove.unpack
      simp only [h3, h1, h2]
    | Rook =>
      obtain ⟨h1, h2, h3⟩ := pack_extract f t 6 hf ht (by omega)
      show PackedMove.unpack (f ||| t <<< 6 ||| 6 <<< 12) = _
      unfold PackedMove.unpack
      simp only [h3, h1, h2]
    | Queen =>
      obtain ⟨h1, h2, h3⟩ := pack_extract f t 7 hf ht (by omega)
      show PackedMove.unpack (f ||| t <<< 6 ||| 7 <<< 12) = _
      unfold PackedMove.unpack
      simp only [h3, h1, h2]

/-- C9 witness: round trip of the concrete move A1-A2 with no promotion. -/
theorem packed_roundtrip_witness :
    (PackedMove.new (some ⟨0, 8, Option.none⟩)).bind PackedMove.unpack
      = some ⟨0, 8, Option.none⟩ :=
  packed_roundtrip 0 8 (by omega) (by omega) Option.none (by decide) (by decide)

/-- C2 counterexample: at score 32767 (a valid `i16` score above the win
threshold) and ply 1 the `i16` addition in `score_to_tt` wraps, and the
round trip returns -32767 instead of 32767. -/
theorem score_roundtrip_cex :
    score_from_tt (score_to_tt 32767 1) 1 ≠ 32767 := by decide

/-- C2 (amended): `score_from_tt` inverts `score_to_tt` at the same ply
for every `i16` score and every ply whose mate-window adjustment stays
inside the `i16` range (`score + ply ≤ 32767` above the win threshold,
`score - ply ≥ -32768` below the loss threshold); with 16-bit wrapping
the round trip fails outside that range. -/
theorem score_roundtrip (score : Int) (ply : Nat)
    (hlo : -32768 ≤ score) (hhi : score ≤ 32767)
    (hw : TB_WIN_IN_PLY ≤ score → score + ply ≤ 32767)
    (hl : score ≤ TB_LOSS_IN_PLY → -32768 ≤ score - ply) :
    score_from_tt (score_to_tt score ply) ply = score := by
  unfold score_to_tt score_from_tt wrap16 TB_WIN_IN_PLY TB_LOSS_IN_PLY at *
  split_ifs at * <;> omega

/-- C2 witness: the inverse law applied at score 31744 (inside the win
window) and ply 100. -/
theorem score_roundtrip_witness :
    score_from_tt (score_to_tt 31744 100) 100 = 31744 :=
  score_roundtrip 31744 100 (by decide) (by decide) (by decide) (by decide)

/-- C5: `TTEntry::quality` computes `age * 2 + depth` in 8-bit arithmetic
before the cast to `u16`, so for age 63 (age/flag byte 252) and depth 255
it yields `381 % 256 = 125` instead of the claimed non-wrapping value
`381` (in debug builds this same input panics on overflow). -/
theorem quality_wraps :
    TTEntry.quality ⟨0, 0, 0, 255, 252⟩ = 125 ∧
      AgeAndFlag.age 252 * 2 + 255 = 381 := by decide

/-- C3: the quality comparison in `TT::store` uses the 8-bit wrapped
`quality`, so a candidate whose true quality `age*2 + depth` is strictly
lower (126 against 376) still overwrites the slot: at epoch 63, with the
single slot holding an entry of age 63 and depth 250, storing a depth-0
no-move entry rewrites the slot instead of leaving it unchanged. -/
theorem store_quality_violation :
    TT.store ⟨[⟨0, 0, 0, 250, 252⟩], 63⟩ 0 Option.none 0 0 TTFlag.Exact 0
      = some ⟨[⟨0, 0, 0, 0, 253⟩], 63⟩ ∧
    (⟨[⟨0, 0, 0, 0, 253⟩], 63⟩ : TT) ≠ ⟨[⟨0, 0, 0, 250, 252⟩], 63⟩ ∧
    AgeAndFlag.age 253 * 2 + 0 < AgeAndFlag.age 252 * 2 + 250 := by decide

/-- C4: when the quality comparison lets `TT::store` replace the slot, the
written record takes key fragment, score, depth and age/flag from the
candidate, and takes the move from the candidate exactly when the
candidate has a real move or the key fragments differ; otherwise the
existing move is preserved. -/
theorem store_replace_spec (t : TT) (key : Nat) (mv : Option Move) (score : Int)
    (depth : Nat) (flag : TTFlag) (ply : Nat) (target : TTEntry) (packed : Nat)
    (htgt : t.entries[t.index key]? = some target)
    (hpm : PackedMove.new mv = some packed)
    (hq : target.quality ≤ TTEntry.quality
      ⟨packed, key % 65536, score_to_tt score ply, depth, AgeAndFlag.new t.epoch flag⟩) :
    t.store key mv score depth flag ply = some
      { entries := t.entries.set (t.index key)
          { mv := if mv.isSome ∨ target.key ≠ key % 65536 then packed else target.mv,
            key := key % 65536, score := score_to_tt score ply,
            depth := depth, age_flag := AgeAndFlag.new t.epoch flag },
        epoch := t.epoch } := by
  simp only [TT.store, htgt, hpm]
  split
  · rfl
  · rename_i hlt
    exact absurd hq hlt

/-- C4 witness: after a store of move A1-A2 at key 5 (slot
`⟨512, 5, 1, 3, 3⟩`), a no-move store of equal quality at key 5 keeps the
move 512 while updating score, depth and flag. -/
theorem store_replace_spec_witness :
    TT.store ⟨[⟨512, 5, 1, 3, 3⟩], 0⟩ 5 Option.none 7 3 TTFlag.Exact 0
      = some ⟨[⟨512, 5, 7, 3, 1⟩], 0⟩ := by
  have h := store_replace_spec ⟨[⟨512, 5, 1, 3, 3⟩], 0⟩ 5 Option.none 7 3
      TTFlag.Exact 0 ⟨512, 5, 1, 3, 3⟩ 0 (by decide) (by decide) (by decide)
  exact h.trans (by decide)

/-- C6: for every 64-bit key and every table of positive length, the
multiply-and-shift index is strictly below the table length. -/
theorem index_lt_length (t : TT) (key : Nat) (hk : key < 2 ^ 64)
    (hlen : 0 < t.entries.length) :
    t.index key < t.entries.length := by
  unfold TT.index
  rw [Nat.shiftRight_eq_div_pow]
  have h1 : key * t.entries.length / 2 ^ 64 < t.entries.length := by
    rw [Nat.div_lt_iff_lt_mul (by positivity)]
    calc key * t.entries.length < 2 ^ 64 * t.entries.length :=
          Nat.mul_lt_mul_of_lt_of_le hk (le_refl _) hlen
      _ = t.entries.length * 2 ^ 64 := Nat.mul_comm _ _
  exact lt_of_le_of_lt (Nat.mod_le _ _) h1

/-- C6 witness: the index of key 5 in a one-slot table is below 1. -/
theorem index_lt_length_witness :
    TT.index ⟨[⟨0, 0, 0, 0, 0⟩], 0⟩ 5 < (⟨[⟨0, 0, 0, 0, 0⟩], 0⟩ : TT).entries.length :=
  index_lt_length ⟨[⟨0, 0, 0, 0, 0⟩], 0⟩ 5 (by norm_num) (by decide)

/-- Auxiliary for C7: while the epoch stays at most 63, iterating `age`
only adds to the counter and leaves the slots alone. -/
theorem age_iterate_le (k : Nat) : ∀ t : TT, t.epoch + k ≤ 63 →
    TT.age^[k] t = { entries := t.entries, epoch := t.epoch + k } := by
  induction k with
  | zero => intro t _; rfl
  | succ n ih =>
    intro t h
    rw [Function.iterate_succ_apply]
    have hage : t.age = { entries := t.entries, epoch := t.epoch + 1 } := by
      unfold TT.age
      rw [if_neg (by omega)]
      simp [Nat.mod_eq_of_lt (show t.epoch + 1 < 256 by omega)]
    rw [hage, ih { entries := t.entries, epoch := t.epoch + 1 } (by simp; omega)]
    simp
    omega

/-- C7: below epoch 63, `age` only increments the counter; at epoch 63 it
rewrites every slot's age/flag byte with age 0 and the flag unchanged
(other fields untouched) and leaves the counter at 1; the re-encoded byte
indeed decodes to age 0 and the old flag; and 63 calls from epoch 0 reach
epoch 63 without touching the slots. -/
theorem age_spec :
    (∀ t : TT, t.epoch < 63 →
        t.age = { entries := t.entries, epoch := t.epoch + 1 }) ∧
    (∀ t : TT, t.epoch = 63 →
        t.age = { entries := t.entries.map fun e =>
                    { e with age_flag := AgeAndFlag.new 0 (AgeAndFlag.flag e.age_flag) },
                  epoch := 1 }) ∧
    (∀ b : Nat, AgeAndFlag.age (AgeAndFlag.new 0 (AgeAndFlag.flag b)) = 0 ∧
        AgeAndFlag.flag (AgeAndFlag.new 0 (AgeAndFlag.flag b)) = AgeAndFlag.flag b) ∧
    (∀ t : TT, t.epoch = 0 →
        (TT.age^[63] t).epoch = 63 ∧ (TT.age^[63] t).entries = t.entries) := by
  refine ⟨?_, ?_, ?_, ?_⟩
  · intro t h
    unfold TT.age
    rw [if_neg (by omega)]
    simp [Nat.mod_eq_of_lt (show t.epoch + 1 < 256 by omega)]
  · intro t h
    unfold TT.age
    rw [if_pos h]
  · intro b
    constructor
    · cases hfb : AgeAndFlag.flag b <;> decide
    · cases hfb : AgeAndFlag.flag b <;> decide
  · intro t h
    rw [age_iterate_le 63 t (by omega)]
    exact ⟨by simp [h], rfl⟩

/-- C7 witness: one increment at epoch 5; the sweep at epoch 63 on a slot
with age/flag byte 255 (age 63, UpperBound) resetting it to 3 (age 0,
UpperBound); decode of the re-encoded byte; and 63 iterated calls from
epoch 0. -/
theorem age_spec_witness :
    TT.age ⟨[⟨1, 2, 3, 4, 7⟩], 5⟩ = ⟨[⟨1, 2, 3, 4, 7⟩], 6⟩ ∧
    TT.age ⟨[⟨1, 2, 3, 4, 255⟩], 63⟩ = ⟨[⟨1, 2, 3, 4, 3⟩], 1⟩ ∧
    AgeAndFlag.age (AgeAndFlag.new 0 (AgeAndFlag.flag 255)) = 0 ∧
    (TT.age^[63] (⟨[], 0⟩ : TT)).epoch = 63 := by
  obtain ⟨h1, h2, h3, h4⟩ := age_spec
  refine ⟨?_, ?_, (h3 255).1, (h4 ⟨[], 0⟩ rfl).1⟩
  · exact (h1 ⟨[⟨1, 2, 3, 4, 7⟩], 5⟩ (by decide)).trans (by decide)
  · exact (h2 ⟨[⟨1, 2, 3, 4, 255⟩], 63⟩ rfl).trans (by decide)

/-- C8 counterexample: at a 4096-megabyte budget the `u32` byte count
`mb * 1024 * 1024` wraps to 0, so the table has length 0 rather than
`floor(mb * 2^20 / 8)`, and the length is not positive. -/
theorem new_overflow_cex :
    (TT.new 4096).entries.length ≠ 4096 * 1024 * 1024 / 8 ∧
    ¬ 0 < (TT.new 4096).entries.length := by decide

/-- C8 (amended): for every budget `mb < 4096` megabytes (so that the
`u32` byte count does not wrap), `new(mb)` has exactly
`floor(mb * 2^20 / 8)` slots, all zero, generation 0, and positively many
slots for every positive budget. -/
theorem new_spec (mb : Nat) (h : mb < 4096) :
    (TT.new mb).entries.length = mb * 1024 * 1024 / 8 ∧
    (TT.new mb).epoch = 0 ∧
    (∀ e ∈ (TT.new mb).entries, e = ⟨0, 0, 0, 0, 0⟩) ∧
    (0 < mb → 0 < (TT.new mb).entries.length) := by
  refine ⟨?_, rfl, ?_, ?_⟩
  · simp only [TT.new, List.length_replicate]
    omega
  · intro e he
    exact List.eq_of_mem_replicate he
  · intro hmb
    simp only [TT.new, List.length_replicate]
    omega

/-- C8 witness: a 1-megabyte budget yields exactly 131072 slots and
generation 0. -/
theorem new_spec_witness :
    (TT.new 1).entries.length = 131072 ∧ (TT.new 1).epoch = 0 := by
  have h := new_spec 1 (by omega)
  exact ⟨h.1.trans (by norm_num), h.2.1⟩

/-- C10: whenever `TT::store` returns, the generation counter is
unchanged, the number of slots is unchanged, and every slot other than
the one at `index(key)` holds exactly what it held before, whether or not
the quality comparison permitted a write. -/
theorem store_frame (t : TT) (key : Nat) (mv : Option Move) (score : Int)
    (depth : Nat) (flag : TTFlag) (ply : Nat) (t' : TT)
    (h : t.store key mv score depth flag ply = some t') :
    t'.epoch = t.epoch ∧ t'.entries.length = t.entries.length ∧
      ∀ j, j ≠ t.index key → t'.entries[j]? = t.entries[j]? := by
  simp only [TT.store] at h
  split at h
  · split at h
    · injection h with h'
      subst h'
      refine ⟨rfl, by simp [List.length_set], ?_⟩
      intro j hj
      exact List.getElem?_set_ne (Ne.symm hj)
    · injection h with h'
      subst h'
      exact ⟨rfl, rfl, fun j _ => rfl⟩
  · exact Option.noConfusion h

/-- C10 witness: storing key 3 into a two-slot table rewrites only slot 0;
slot 1 and the epoch are untouched. -/
theorem store_frame_witness :
    (⟨[⟨0, 3, 5, 2, 29⟩, ⟨1, 1, 1, 1, 1⟩], 7⟩ : TT).epoch
        = (⟨[⟨0, 0, 0, 0, 0⟩, ⟨1, 1, 1, 1, 1⟩], 7⟩ : TT).epoch ∧
    (⟨[⟨0, 3, 5, 2, 29⟩, ⟨1, 1, 1, 1, 1⟩], 7⟩ : TT).entries[1]?
        = (⟨[⟨0, 0, 0, 0, 0⟩, ⟨1, 1, 1, 1, 1⟩], 7⟩ : TT).entries[1]? := by
  have h := store_frame ⟨[⟨0, 0, 0, 0, 0⟩, ⟨1, 1, 1, 1, 1⟩], 7⟩ 3 Option.none 5 2
      TTFlag.Exact 0 ⟨[⟨0, 3, 5, 2, 29⟩, ⟨1, 1, 1, 1, 1⟩], 7⟩ (by decide)
  exact ⟨h.1, h.2.2 1 (by decide)⟩
